import Mathlib

/-!
Verification of the kana-dojo blog core: heading extraction with
collision-free id assignment, frontmatter validation, reading-time
estimation, the `BlogPost` presentation component's heading structure,
and the blitz-game accuracy display.

The library functions `extractHeadings`, `generateHeadingId`,
`validateFrontmatter` and `calculateReadingTime` are exported by
`src/features/Blog/index.ts` but their bodies are not part of the
provided sources, so they are modelled here from the specification
(each such definition carries a `Modelled from the spec:` comment).
The `BlogPost` component and the `ActiveGame` accuracy computation are
embedded from the provided component sources.
-/

namespace KanaDojo

/-! ### Character-list string utilities -/

/-- Splits a character list into lines at newline characters.
Mirrors splitting the markup source on `"\n"`. -/
def splitLines : List Char → List (List Char)
  | [] => [[]]
  | c :: rest =>
    match splitLines rest with
    | [] => [[c]]
    | line :: lines =>
      if c = '\n' then [] :: line :: lines else (c :: line) :: lines

/-- Trims whitespace from both ends of a character list. -/
def trimChars (l : List Char) : List Char :=
  ((l.dropWhile (·.isWhitespace)).reverse.dropWhile (·.isWhitespace)).reverse

/-- Collapses every run of hyphens into a single hyphen; the boolean
records whether the previous emitted character was a hyphen. -/
def collapseDashAux : List Char → Bool → List Char
  | [], _ => []
  | c :: rest, prevDash =>
    if c = '-' then
      if prevDash then collapseDashAux rest true
      else '-' :: collapseDashAux rest true
    else c :: collapseDashAux rest false

/-- Trims hyphens from both ends of a character list. -/
def trimDashes (l : List Char) : List Char :=
  ((l.dropWhile (· = '-')).reverse.dropWhile (· = '-')).reverse

/-- Modelled from the spec: the candidate-id transform of
`generateHeadingId` — lowercase the text, replace each run of
whitespace / non-alphanumeric characters by a single hyphen, and trim
leading and trailing hyphens. -/
def slugify (s : String) : String :=
  String.mk (trimDashes (collapseDashAux
    ((s.data.map Char.toLower).map fun c => if c.isAlphanum then c else '-') false))

/-- Maps a decimal digit value to its character. -/
def digitChar : Nat → Char
  | 0 => '0'
  | 1 => '1'
  | 2 => '2'
  | 3 => '3'
  | 4 => '4'
  | 5 => '5'
  | 6 => '6'
  | 7 => '7'
  | 8 => '8'
  | 9 => '9'
  | _ => '*'

/-- Accumulator-style decimal rendering of a natural number; the first
argument is fuel bounding the number of digits, so the recursion is
structural and kernel-reducible. -/
def toDigitsCore : Nat → Nat → List Char → List Char
  | 0, n, acc => digitChar n :: acc
  | fuel + 1, n, acc =>
    if n < 10 then digitChar n :: acc
    else toDigitsCore fuel (n / 10) (digitChar (n % 10) :: acc)

/-- Decimal string representation of a natural number. -/
def natToString (n : Nat) : String :=
  String.mk (toDigitsCore n n [])

/-- Left fold reading a decimal digit string back into a number;
used only to prove `natToString` injective. -/
def digitsVal (l : List Char) : Nat :=
  l.foldl (fun a c => a * 10 + (c.toNat - 48)) 0

theorem digitChar_val {d : Nat} (h : d < 10) : (digitChar d).toNat - 48 = d := by
  interval_cases d <;> rfl

theorem toDigitsCore_append (fuel : Nat) :
    ∀ n acc, toDigitsCore fuel n acc = toDigitsCore fuel n [] ++ acc := by
  induction fuel with
  | zero => intro n acc; rfl
  | succ fuel ih =>
    intro n acc
    by_cases h : n < 10
    · simp [toDigitsCore, h]
    · simp only [toDigitsCore, h, if_false]
      rw [ih (n / 10) (digitChar (n % 10) :: acc), ih (n / 10) [digitChar (n % 10)]]
      simp

theorem digitsVal_toDigitsCore (fuel : Nat) :
    ∀ n, n ≤ fuel → digitsVal (toDigitsCore fuel n []) = n := by
  induction fuel with
  | zero =>
    intro n hn
    interval_cases n
    rfl
  | succ fuel ih =>
    intro n hn
    by_cases h : n < 10
    · simp only [toDigitsCore, h, if_true]
      simp [digitsVal, digitChar_val h]
    · have hd : n / 10 < n := Nat.div_lt_self (by omega) (by omega)
      have hmod : n % 10 < 10 := Nat.mod_lt _ (by omega)
      simp only [toDigitsCore, h, if_false]
      rw [toDigitsCore_append]
      simp only [digitsVal, List.foldl_append, List.foldl_cons, List.foldl_nil]
      have := ih (n / 10) (by omega)
      simp only [digitsVal] at this
      rw [this, digitChar_val hmod]
      omega

theorem natToString_injective : Function.Injective natToString := by
  intro m n h
  have hdata : toDigitsCore m m [] = toDigitsCore n n [] := congrArg String.data h
  have := congrArg digitsVal hdata
  rwa [digitsVal_toDigitsCore m m le_rfl, digitsVal_toDigitsCore n n le_rfl] at this

/-! ### Heading extraction -/

/-- Entry of the table-of-contents sequence: an id, the visible text
and the heading level, as in `types/blog`. -/
structure Heading where
  id : String
  text : String
  level : Nat
deriving DecidableEq

/-- Modelled from the spec: positional fallback plus candidate id of
`generateHeadingId` — the slug of the text when it is non-empty,
otherwise a heading-index-based placeholder token. -/
def generateHeadingId (text : String) (index : Nat) : String :=
  if slugify text = "" then "heading-" ++ natToString index else slugify text

/-- Disambiguation candidate for a base id: the base with a numeric
suffix attached. -/
def candidateId (base : String) (k : Nat) : String :=
  base ++ "-" ++ natToString k

/-- Fuel-bounded search for the smallest numeric suffix (starting at
`k`) whose candidate id is not yet used. -/
def searchSuffix (used : List String) (base : String) : Nat → Nat → String
  | 0, k => candidateId base k
  | fuel + 1, k =>
    if candidateId base k ∈ used then searchSuffix used base fuel (k + 1)
    else candidateId base k

/-- Modelled from the spec: collision resolution — keep the candidate
id if unused, otherwise append the smallest numeric suffix `-2`, `-3`,
… producing an id not yet used in this extraction run. -/
def freshId (used : List String) (base : String) : String :=
  if base ∈ used then searchSuffix used base (used.length + 1) 2 else base

/-- Modelled from the spec: recognition of one line as a heading
marker — a run of `#` characters followed by a whitespace character;
returns the marker level and the trimmed remaining text. Lines not of
this shape are ordinary body text. -/
def parseHeadingLine (line : List Char) : Option (Nat × String) :=
  let hashes := line.takeWhile (· = '#')
  let rest := line.dropWhile (· = '#')
  if hashes.length ≥ 1 ∧ hashes.length ≤ 4 ∧ rest.head?.any (·.isWhitespace) then
    some (hashes.length, String.mk (trimChars rest))
  else none

/-- Modelled from the spec: the line scan of `extractHeadings` —
`index` counts produced headings (for the positional id fallback) and
`used` holds the ids already assigned in this run. -/
def extractAux : List (List Char) → Nat → List String → List Heading
  | [], _, _ => []
  | line :: rest, index, used =>
    match parseHeadingLine line with
    | some (level, text) =>
      if 2 ≤ level ∧ level ≤ 4 ∧ text ≠ "" then
        let id := freshId used (generateHeadingId text index)
        ⟨id, text, level⟩ :: extractAux rest (index + 1) (id :: used)
      else extractAux rest index used
    | none => extractAux rest index used

/-- Modelled from the spec: `extractHeadings` scans the markup source
line by line for level-2..4 heading markers and produces the ordered
table-of-contents sequence with collision-free ids. -/
def extractHeadings (source : String) : List Heading :=
  extractAux (splitLines source.data) 0 []

example : extractHeadings "## Overview\n### Details\n## Overview" =
    [⟨"overview", "Overview", 2⟩, ⟨"details", "Details", 3⟩,
     ⟨"overview-2", "Overview", 2⟩] := by decide

/-! ### Freshness of assigned ids -/

theorem candidateId_inj (base : String) {j k : Nat}
    (h : candidateId base j = candidateId base k) : j = k := by
  have hdata := congrArg String.data h
  simp only [candidateId, String.data_append] at hdata
  have h2 := List.append_cancel_left hdata
  have := congrArg digitsVal h2
  rwa [show (natToString j).data = toDigitsCore j j [] from rfl,
    show (natToString k).data = toDigitsCore k k [] from rfl,
    digitsVal_toDigitsCore j j le_rfl, digitsVal_toDigitsCore k k le_rfl] at this

theorem searchSuffix_not_mem (used : List String) (base : String) :
    ∀ fuel k,
      ((List.range fuel).map fun i => candidateId base (k + i)).countP
        (fun s => decide (s ∈ used)) < fuel →
      searchSuffix used base fuel k ∉ used := by
  intro fuel
  induction fuel with
  | zero => intro k hcount; omega
  | succ fuel ih =>
    intro k hcount
    by_cases hmem : candidateId base k ∈ used
    · rw [searchSuffix, if_pos hmem]
      apply ih (k + 1)
      rw [List.range_succ_eq_map, List.map_cons, List.map_map] at hcount
      simp only [List.countP_cons, Function.comp_def, Nat.add_zero] at hcount
      have hone : (if decide (candidateId base k ∈ used) = true then 1 else 0) = 1 := by
        simp [hmem]
      rw [hone] at hcount
      have hrw : ((List.range fuel).map fun i => candidateId base (k + Nat.succ i)) =
          (List.range fuel).map fun i => candidateId base (k + 1 + i) := by
        apply List.map_congr_left
        intro i _
        congr 1
        omega
      rw [hrw] at hcount
      omega
    · rw [searchSuffix, if_neg hmem]
      exact hmem

theorem countP_mem_le_length (used : List String) (l : List String)
    (hnd : l.Nodup) : l.countP (fun s => decide (s ∈ used)) ≤ used.length := by
  rw [List.countP_eq_length_filter]
  have hndf : (l.filter fun s => decide (s ∈ used)).Nodup := hnd.filter _
  have hsub : (l.filter fun s => decide (s ∈ used)).toFinset ⊆ used.toFinset := by
    intro x hx
    rw [List.mem_toFinset] at hx ⊢
    have := List.of_mem_filter hx
    simpa using this
  calc (l.filter fun s => decide (s ∈ used)).length
      = (l.filter fun s => decide (s ∈ used)).toFinset.card := (List.toFinset_card_of_nodup hndf).symm
    _ ≤ used.toFinset.card := Finset.card_le_card hsub
    _ ≤ used.length := List.toFinset_card_le used

theorem freshId_not_mem (used : List String) (base : String) :
    freshId used base ∉ used := by
  by_cases hmem : base ∈ used
  · rw [freshId, if_pos hmem]
    apply searchSuffix_not_mem
    have hnd : ((List.range (used.length + 1)).map fun i => candidateId base (2 + i)).Nodup := by
      apply List.Nodup.map _ (List.nodup_range _)
      intro i j hij
      have := candidateId_inj base hij
      omega
    have := countP_mem_le_length used _ hnd
    calc ((List.range (used.length + 1)).map fun i => candidateId base (2 + i)).countP
          (fun s => decide (s ∈ used)) ≤ used.length := this
      _ < used.length + 1 := by omega
  · rw [freshId, if_neg hmem]
    exact hmem

/-! ### Invariants of the extraction scan -/

theorem extractAux_fresh_pairwise :
    ∀ (lines : List (List Char)) (index : Nat) (used : List String),
      (∀ h ∈ extractAux lines index used, h.id ∉ used) ∧
      (extractAux lines index used).Pairwise (fun a b => a.id ≠ b.id) := by
  intro lines
  induction lines with
  | nil => intro index used; simp [extractAux]
  | cons line rest ih =>
    intro index used
    simp only [extractAux]
    match hp : parseHeadingLine line with
    | none => exact ih index used
    | some (level, text) =>
      dsimp only
      by_cases hc : 2 ≤ level ∧ level ≤ 4 ∧ text ≠ ""
      · rw [if_pos hc]
        obtain ⟨ihFresh, ihPw⟩ :=
          ih (index + 1) (freshId used (generateHeadingId text index) :: used)
        constructor
        · intro h hmem
          rcases List.mem_cons.1 hmem with hhead | htail
          · rw [hhead]
            exact freshId_not_mem used (generateHeadingId text index)
          · have := ihFresh h htail
            intro hu
            exact this (List.mem_cons_of_mem _ hu)
        · refine List.Pairwise.cons ?_ ihPw
          intro h htail
          have := ihFresh h htail
          intro heq
          exact this (heq ▸ List.mem_cons_self _ _)
      · rw [if_neg hc]
        exact ih index used

theorem extractAux_levels :
    ∀ (lines : List (List Char)) (index : Nat) (used : List String),
      ∀ h ∈ extractAux lines index used, 2 ≤ h.level ∧ h.level ≤ 4 := by
  intro lines
  induction lines with
  | nil => intro index used h hmem; simp [extractAux] at hmem
  | cons line rest ih =>
    intro index used h hmem
    rw [extractAux] at hmem
    split at hmem
    · split at hmem
      next hc =>
        rcases List.mem_cons.1 hmem with hhead | htail
        · rw [hhead]
          exact ⟨hc.1, hc.2.1⟩
        · exact ih _ _ h htail
      next hc => exact ih index used h hmem
    · exact ih index used h hmem

/-! ### Frontmatter validation -/

/-- Raw frontmatter values: a string, a list of strings, or an
integer. -/
inductive FMValue where
  | str (s : String)
  | strList (l : List String)
  | int (n : Int)
deriving DecidableEq

/-- Raw frontmatter record: a mapping of field name to value,
represented as an association list. -/
abbrev Frontmatter : Type := List (String × FMValue)

/-- Looks a field up in a frontmatter record; `none` means the field
is absent. -/
def getField : Frontmatter → String → Option FMValue
  | [], _ => none
  | (k, v) :: rest, key => if k = key then some v else getField rest key

/-- Required frontmatter fields, in declaration order, as exported by
the blog module. -/
def REQUIRED_FRONTMATTER_FIELDS : List String :=
  ["title", "description", "slug", "publishedAt", "author", "category", "tags",
   "readingTime", "locale"]

/-- Allowed categories, as exported by the blog module. -/
def VALID_CATEGORIES : List String :=
  ["hiragana", "katakana", "kanji", "vocabulary", "grammar", "culture"]

/-- Modelled from the spec: the closed difficulty enumeration; the
spec fixes only that it is a closed set, so representative members are
used. -/
def VALID_DIFFICULTIES : List String := ["beginner", "intermediate", "advanced"]

/-- Allowed locales, as exported by the blog module. -/
def VALID_LOCALES : List String := ["en", "ja"]

/-- Validation violation: the field it concerns and a human-readable
message identifying that field. -/
structure ValidationError where
  field : String
  message : String
deriving DecidableEq

/-- Result of `validateFrontmatter`. -/
structure ValidationResult where
  isValid : Bool
  errors : List ValidationError
deriving DecidableEq

/-- Emptiness of a frontmatter value, for the required-field check. -/
def isEmptyValue : FMValue → Bool
  | .str s => s = ""
  | .strList l => l.isEmpty
  | .int _ => false

/-- Modelled from the spec: the required-field check for one field —
missing or empty yields one error naming the field. -/
def requiredFieldError (fm : Frontmatter) (field : String) : Option ValidationError :=
  match getField fm field with
  | none => some ⟨field, "Missing required field: " ++ field⟩
  | some v =>
    if isEmptyValue v then some ⟨field, "Empty required field: " ++ field⟩ else none

/-- Required-field errors, in declaration order of the required
fields. -/
def requiredErrors (fm : Frontmatter) : List ValidationError :=
  REQUIRED_FRONTMATTER_FIELDS.filterMap (requiredFieldError fm)

/-- Modelled from the spec: the domain check for one enumerated field
— a present value outside the allowed set yields one error
identifying field and offending value. Absent fields are left to the
required-field check. -/
def enumFieldError (fm : Frontmatter) (field : String) (allowed : List String) :
    Option ValidationError :=
  match getField fm field with
  | none => none
  | some (.str v) =>
    if v ∈ allowed then none
    else some ⟨field, "Invalid " ++ field ++ ": " ++ v⟩
  | some _ => some ⟨field, "Invalid " ++ field ++ ": wrong type"⟩

/-- Domain errors: category, then difficulty, then locale. -/
def domainErrors (fm : Frontmatter) : List ValidationError :=
  [enumFieldError fm "category" VALID_CATEGORIES,
   enumFieldError fm "difficulty" VALID_DIFFICULTIES,
   enumFieldError fm "locale" VALID_LOCALES].filterMap id

/-- Splits a character list at every separator recognized by `p`. -/
def splitOnPred (p : Char → Bool) : List Char → List (List Char)
  | [] => [[]]
  | c :: rest =>
    match splitOnPred p rest with
    | [] => [[c]]
    | seg :: segs => if p c then [] :: seg :: segs else (c :: seg) :: segs

/-- Tests that every character is a decimal digit. -/
def allDigits (l : List Char) : Bool :=
  l.all fun c => '0' ≤ c && c ≤ '9'

/-- Gregorian leap-year test. -/
def isLeapYear (y : Nat) : Bool :=
  (y % 4 == 0 && y % 100 != 0) || y % 400 == 0

/-- Number of days in a month of a given year. -/
def daysInMonth (y m : Nat) : Nat :=
  if m = 2 then (if isLeapYear y then 29 else 28)
  else if m = 4 ∨ m = 6 ∨ m = 9 ∨ m = 11 then 30
  else 31

/-- Modelled from the spec: date well-formedness — a fixed
year-month-day format that parses as a valid calendar date. -/
def isValidDate (s : String) : Bool :=
  match splitOnPred (fun c => c == '-') s.data with
  | [y, m, d] =>
    allDigits y && allDigits m && allDigits d &&
    y.length == 4 && m.length == 2 && d.length == 2 &&
    decide (1 ≤ digitsVal m) && decide (digitsVal m ≤ 12) &&
    decide (1 ≤ digitsVal d) &&
    decide (digitsVal d ≤ daysInMonth (digitsVal y) (digitsVal m))
  | _ => false

/-- Modelled from the spec: the shape check for `tags` — a present
value must be a non-empty list of non-empty strings. -/
def tagsShapeError (fm : Frontmatter) : Option ValidationError :=
  match getField fm "tags" with
  | none => none
  | some (.strList l) =>
    if l ≠ [] ∧ ∀ s ∈ l, s ≠ "" then none
    else some ⟨"tags", "Tags must be a non-empty list of non-empty strings"⟩
  | some _ => some ⟨"tags", "Tags must be a non-empty list of non-empty strings"⟩

/-- Modelled from the spec: the shape check for `readingTime` — a
present value must be a positive integer. -/
def readingTimeShapeError (fm : Frontmatter) : Option ValidationError :=
  match getField fm "readingTime" with
  | none => none
  | some (.int n) =>
    if 0 < n then none
    else some ⟨"readingTime", "Reading time must be a positive integer"⟩
  | some _ => some ⟨"readingTime", "Reading time must be a positive integer"⟩

/-- Modelled from the spec: the shape check for a date field — a
present value must be a well-formed year-month-day date string. -/
def dateShapeError (fm : Frontmatter) (field : String) : Option ValidationError :=
  match getField fm field with
  | none => none
  | some (.str s) =>
    if isValidDate s then none
    else some ⟨field, "Invalid date in field: " ++ field⟩
  | some _ => some ⟨field, "Invalid date in field: " ++ field⟩

/-- Shape errors: tags, readingTime, then the date fields. -/
def shapeErrors (fm : Frontmatter) : List ValidationError :=
  [tagsShapeError fm, readingTimeShapeError fm,
   dateShapeError fm "publishedAt", dateShapeError fm "updatedAt"].filterMap id

/-- Modelled from the spec: `validateFrontmatter` collects every
violation in a single pass — required-field errors in declaration
order, then domain errors, then shape errors — and reports validity as
emptiness of the collected list. It is a total function: validation
failure is a returned value, never an exception. -/
def validateFrontmatter (fm : Frontmatter) : ValidationResult :=
  let errors := requiredErrors fm ++ domainErrors fm ++ shapeErrors fm
  ⟨errors.isEmpty, errors⟩

/-- Per-field pass predicate for the required-field check. -/
def fieldPresentNonEmpty (fm : Frontmatter) (field : String) : Bool :=
  match getField fm field with
  | some v => !isEmptyValue v
  | none => false

/-- Per-field pass predicate for the domain check. -/
def enumFieldOk (fm : Frontmatter) (field : String) (allowed : List String) : Bool :=
  match getField fm field with
  | none => true
  | some (.str v) => decide (v ∈ allowed)
  | some _ => false

/-- Pass predicate for the `tags` shape check. -/
def tagsOk (fm : Frontmatter) : Bool :=
  match getField fm "tags" with
  | none => true
  | some (.strList l) => !l.isEmpty && l.all (· != "")
  | some _ => false

/-- Pass predicate for the `readingTime` shape check. -/
def readingTimeOk (fm : Frontmatter) : Bool :=
  match getField fm "readingTime" with
  | none => true
  | some (.int n) => decide (0 < n)
  | some _ => false

/-- Pass predicate for a date-field shape check. -/
def dateFieldOk (fm : Frontmatter) (field : String) : Bool :=
  match getField fm field with
  | none => true
  | some (.str s) => isValidDate s
  | some _ => false

/-! ### Reading time -/

/-- Words-per-minute constant of the reading-time estimator. -/
def WORDS_PER_MINUTE : Nat := 200

/-- Modelled from the spec: word count — the number of
whitespace-delimited tokens in the text. -/
def wordCount (text : String) : Nat :=
  ((splitOnPred Char.isWhitespace text.data).filter (· ≠ [])).length

/-- Modelled from the spec: `calculateReadingTime` — the ceiling of
wordCount / wordsPerMinute with a one-minute floor; the spec leaves
the empty text ambiguous, and the floor resolves it to 1 here. -/
def calculateReadingTime (text : String) : Nat :=
  max 1 ((wordCount text + (WORDS_PER_MINUTE - 1)) / WORDS_PER_MINUTE)

example : calculateReadingTime "one two three" = 1 := by decide
example : wordCount " " = 0 ∧ calculateReadingTime " " = 1 := by decide

/-! ### The BlogPost presentation component -/

/-- Simplified DOM tree for the rendered markup. -/
inductive Node where
  | elem (tag : String) (children : List Node)
  | textNode (s : String)

/-- Heading level of an element tag, if it is a heading element. -/
def headingLevelOfTag (tag : String) : Option Nat :=
  if tag = "h1" then some 1
  else if tag = "h2" then some 2
  else if tag = "h3" then some 3
  else if tag = "h4" then some 4
  else if tag = "h5" then some 5
  else if tag = "h6" then some 6
  else none

mutual

/-- Concatenated text content of a node. -/
def textContent : Node → String
  | .textNode s => s
  | .elem _ cs => textContentList cs

/-- Concatenated text content of a node list. -/
def textContentList : List Node → String
  | [] => ""
  | n :: ns => textContent n ++ textContentList ns

end

mutual

/-- Heading elements of a rendered tree, in document order, as
(level, text content) pairs. -/
def headingsOf : Node → List (Nat × String)
  | .textNode _ => []
  | .elem tag cs =>
    match headingLevelOfTag tag with
    | some l => [(l, textContentList cs)]
    | none => headingsOfList cs

/-- Heading elements of a node list, in document order. -/
def headingsOfList : List Node → List (Nat × String)
  | [] => []
  | n :: ns => headingsOf n ++ headingsOfList ns

end

/-- Blog post data consumed by the component, as in `types/blog`; the
TypeScript type restricts heading levels to 2 | 3 | 4, carried here as
a structure invariant. -/
structure BlogPost where
  title : String
  description : String
  slug : String
  publishedAt : String
  updatedAt : Option String
  author : String
  category : String
  tags : List String
  featuredImage : Option String
  readingTime : Nat
  difficulty : Option String
  relatedPosts : Option (List String)
  locale : String
  content : String
  headings : List Heading
  headings_levels : ∀ h ∈ headings, h.level = 2 ∨ h.level = 3 ∨ h.level = 4

/-- Modelled from the spec: `TableOfContents` renders the heading
sequence as a navigable outline of anchor links, with no heading
elements of its own (the component's source is not among the provided
files; the property tests assert a single `h1` in the full render). -/
def renderTableOfContents (headings : List Heading) : Node :=
  .elem "nav" (headings.map fun h => .elem "a" [.textNode h.text])

/-- Modelled from the spec: `RelatedPosts` renders post cards; its
source is not among the provided files and the property tests assert a
single `h1` in the full render, so it is modelled without heading
elements. -/
def renderRelatedPosts (posts : List String) : Node :=
  .elem "div" (posts.map fun t => .elem "article" [.textNode t])

/-- Embedding of the `BlogPost` component's markup from
`components/BlogPost.tsx`: a header with category and difficulty
badges, the single `h1` title, description and meta information,
optional tags; then the content area with the mobile table of
contents, the externally rendered MDX `children`, the optional related
posts section, and the desktop sidebar table of contents. -/
def renderBlogPost (post : BlogPost) (relatedPosts : List String)
    (children : List Node) : Node :=
  .elem "article"
    [.elem "header"
      ([.elem "div"
          ([.elem "span" [.textNode post.category]] ++
            (match post.difficulty with
             | some d => [.elem "span" [.textNode d]]
             | none => [])),
        .elem "h1" [.textNode post.title],
        .elem "p" [.textNode post.description],
        .elem "div"
          ([.elem "span" [.textNode ("By " ++ post.author)],
            .elem "time" [.textNode post.publishedAt]] ++
            (match post.updatedAt with
             | some d => [.elem "span" [.textNode ("Updated: " ++ d)]]
             | none => []) ++
            [.elem "span" [.textNode (natToString post.readingTime ++ " min read")]])] ++
        (if post.tags ≠ [] then
          [.elem "div" (post.tags.map fun t => .elem "span" [.textNode ("#" ++ t)])]
        else [])),
     .elem "div"
      ([.elem "main"
          ((if post.headings ≠ [] then
              [.elem "section" [renderTableOfContents post.headings]]
            else []) ++
            [.elem "section" children] ++
            (if relatedPosts ≠ [] then
              [.elem "section" [renderRelatedPosts relatedPosts]]
            else []))] ++
        (if post.headings ≠ [] then
          [.elem "aside" [.elem "div" [renderTableOfContents post.headings]]]
        else []))]

/-! ### ActiveGame accuracy -/

/-- Stats record of the blitz game, as passed to `ActiveGame`. -/
structure BlitzStats where
  correct : Nat
  wrong : Nat
  streak : Nat
deriving DecidableEq

/-- Embedding of `totalAnswers` in `ActiveGame`. -/
def totalAnswers (stats : BlitzStats) : Nat :=
  stats.correct + stats.wrong

/-- Rounds a rational to the nearest integer, ties to even — the
IEEE-754 default rounding applied to a scaled significand. -/
def roundNearestEven (q : ℚ) : ℤ :=
  if q - ⌊q⌋ < 1 / 2 then ⌊q⌋
  else if 1 / 2 < q - ⌊q⌋ then ⌊q⌋ + 1
  else if ⌊q⌋ % 2 = 0 then ⌊q⌋ else ⌊q⌋ + 1

/-- Correctly rounded binary64 value of a positive rational in the
normal range: the 53-bit scaled significand `q · 2^(52−e)`, with `e`
the binary exponent of `q`, rounded to nearest (ties to even) and
scaled back. -/
def flPos (q : ℚ) : ℚ :=
  (roundNearestEven (q * 2 ^ (52 - Int.log 2 q)) : ℚ) * 2 ^ (Int.log 2 q - 52)

/-- Rounding of a rational to the nearest IEEE-754 binary64 value,
modelling one JavaScript double operation; percentages computed here
stay in the normal range, so subnormals and overflow do not arise. -/
def fl (q : ℚ) : ℚ :=
  if q = 0 then 0 else if 0 < q then flPos q else -flPos (-q)

/-- Embedding of the `accuracy` computation in `ActiveGame`:
`Math.round((stats.correct / totalAnswers) * 100)` in IEEE-754 double
arithmetic — the division and the multiplication each round to the
nearest binary64 value (`fl`), and `Math.round` takes the nearest
integer, half toward positive infinity, of the resulting double's
exact value; the division is guarded so that zero answers yield 0.
The integer operands are exact, counts staying far below 2^53. -/
def accuracy (stats : BlitzStats) : ℤ :=
  if 0 < totalAnswers stats then
    round (fl (fl ((stats.correct : ℚ) / (totalAnswers stats : ℚ)) * 100))
  else 0

/-! ### Validator lemmas -/

theorem requiredFieldError_field {fm : Frontmatter} {f : String} {e : ValidationError}
    (h : requiredFieldError fm f = some e) : e.field = f := by
  rw [requiredFieldError] at h
  split at h
  · cases h
    rfl
  · split at h
    · cases h
      rfl
    · cases h

theorem mem_filterMap_required {fm : Frontmatter} {l : List String} {e : ValidationError}
    (h : e ∈ l.filterMap (requiredFieldError fm)) : e.field ∈ l := by
  obtain ⟨f, hf, hfe⟩ := List.mem_filterMap.1 h
  exact (requiredFieldError_field hfe) ▸ hf

theorem filterMap_required_count {fm : Frontmatter} {F : String} :
    ∀ l : List String, F ∈ l → l.Nodup → getField fm F = none →
      ((l.filterMap (requiredFieldError fm)).filter (fun e => e.field == F)).length = 1 := by
  intro l
  induction l with
  | nil => intro hFl; cases hFl
  | cons f l ih =>
    intro hFl hnd hF
    rw [List.filterMap_cons]
    by_cases hfF : f = F
    · subst hfF
      have hsome : requiredFieldError fm f =
          some ⟨f, "Missing required field: " ++ f⟩ := by
        rw [requiredFieldError, hF]
      rw [hsome]
      rw [List.filter_cons]
      have hbeq : ((⟨f, "Missing required field: " ++ f⟩ : ValidationError).field == f) = true := by
        simp
      rw [if_pos hbeq]
      have hrest : (l.filterMap (requiredFieldError fm)).filter (fun e => e.field == f) = [] := by
        rw [List.filter_eq_nil_iff]
        intro e he hbeq2
        have hmem := mem_filterMap_required he
        rw [eq_of_beq hbeq2] at hmem
        exact (List.nodup_cons.1 hnd).1 hmem
      rw [hrest]
      rfl
    · have hFl' : F ∈ l := by
        rcases List.mem_cons.1 hFl with heq | hm
        · exact absurd heq.symm hfF
        · exact hm
      have ihl := ih hFl' (List.nodup_cons.1 hnd).2 hF
      cases hre : requiredFieldError fm f with
      | none => exact ihl
      | some e =>
        have hef : e.field = f := requiredFieldError_field hre
        rw [List.filter_cons]
        have : (e.field == F) = false := by
          rw [hef]
          exact beq_false_of_ne hfF
        rw [if_neg (by rw [this]; exact Bool.false_ne_true)]
        exact ihl

theorem enumFieldError_some {fm : Frontmatter} {f : String} {allowed : List String}
    {e : ValidationError} (h : enumFieldError fm f allowed = some e) :
    e.field = f ∧ getField fm f ≠ none := by
  rw [enumFieldError] at h
  split at h
  · cases h
  · next v heq =>
    split at h
    · cases h
    · cases h
      exact ⟨rfl, by rw [heq]; exact fun hc => Option.noConfusion hc⟩
  · next v hno heq =>
    cases h
    exact ⟨rfl, by rw [heq]; exact fun hc => Option.noConfusion hc⟩

theorem domainErrors_field {fm : Frontmatter} {e : ValidationError}
    (h : e ∈ domainErrors fm) :
    (e.field = "category" ∨ e.field = "difficulty" ∨ e.field = "locale") ∧
      getField fm e.field ≠ none := by
  rw [domainErrors] at h
  obtain ⟨o, ho, hoe⟩ := List.mem_filterMap.1 h
  have hoe' : o = some e := hoe
  simp only [List.mem_cons, List.not_mem_nil, or_false] at ho
  rcases ho with hc | hc | hc
  · obtain ⟨h1, h2⟩ := enumFieldError_some (hc ▸ hoe')
    exact ⟨Or.inl h1, h1 ▸ h2⟩
  · obtain ⟨h1, h2⟩ := enumFieldError_some (hc ▸ hoe')
    exact ⟨Or.inr (Or.inl h1), h1 ▸ h2⟩
  · obtain ⟨h1, h2⟩ := enumFieldError_some (hc ▸ hoe')
    exact ⟨Or.inr (Or.inr h1), h1 ▸ h2⟩

theorem tagsShapeError_some {fm : Frontmatter} {e : ValidationError}
    (h : tagsShapeError fm = some e) : e.field = "tags" ∧ getField fm "tags" ≠ none := by
  rw [tagsShapeError] at h
  split at h
  · cases h
  · next l heq =>
    split at h
    · cases h
    · cases h
      exact ⟨rfl, by rw [heq]; exact fun hc => Option.noConfusion hc⟩
  · next v hno heq =>
    cases h
    exact ⟨rfl, by rw [heq]; exact fun hc => Option.noConfusion hc⟩

theorem readingTimeShapeError_some {fm : Frontmatter} {e : ValidationError}
    (h : readingTimeShapeError fm = some e) :
    e.field = "readingTime" ∧ getField fm "readingTime" ≠ none := by
  rw [readingTimeShapeError] at h
  split at h
  · cases h
  · next n heq =>
    split at h
    · cases h
    · cases h
      exact ⟨rfl, by rw [heq]; exact fun hc => Option.noConfusion hc⟩
  · next v hno heq =>
    cases h
    exact ⟨rfl, by rw [heq]; exact fun hc => Option.noConfusion hc⟩

theorem dateShapeError_some {fm : Frontmatter} {f : String} {e : ValidationError}
    (h : dateShapeError fm f = some e) : e.field = f ∧ getField fm f ≠ none := by
  rw [dateShapeError] at h
  split at h
  · cases h
  · next s heq =>
    split at h
    · cases h
    · cases h
      exact ⟨rfl, by rw [heq]; exact fun hc => Option.noConfusion hc⟩
  · next v hno heq =>
    cases h
    exact ⟨rfl, by rw [heq]; exact fun hc => Option.noConfusion hc⟩

theorem shapeErrors_field {fm : Frontmatter} {e : ValidationError}
    (h : e ∈ shapeErrors fm) :
    (e.field = "tags" ∨ e.field = "readingTime" ∨ e.field = "publishedAt" ∨
      e.field = "updatedAt") ∧ getField fm e.field ≠ none := by
  rw [shapeErrors] at h
  obtain ⟨o, ho, hoe⟩ := List.mem_filterMap.1 h
  have hoe' : o = some e := hoe
  simp only [List.mem_cons, List.not_mem_nil, or_false] at ho
  rcases ho with hc | hc | hc | hc
  · obtain ⟨h1, h2⟩ := tagsShapeError_some (hc ▸ hoe')
    exact ⟨Or.inl h1, h1 ▸ h2⟩
  · obtain ⟨h1, h2⟩ := readingTimeShapeError_some (hc ▸ hoe')
    exact ⟨Or.inr (Or.inl h1), h1 ▸ h2⟩
  · obtain ⟨h1, h2⟩ := dateShapeError_some (hc ▸ hoe')
    exact ⟨Or.inr (Or.inr (Or.inl h1)), h1 ▸ h2⟩
  · obtain ⟨h1, h2⟩ := dateShapeError_some (hc ▸ hoe')
    exact ⟨Or.inr (Or.inr (Or.inr h1)), h1 ▸ h2⟩

theorem requiredFieldError_eq_none {fm : Frontmatter} {f : String}
    (h : fieldPresentNonEmpty fm f = true) : requiredFieldError fm f = none := by
  rw [fieldPresentNonEmpty] at h
  rw [requiredFieldError]
  split
  · next heq => rw [heq] at h; cases h
  · next v heq =>
    rw [heq] at h
    rw [if_neg]
    simp only [Bool.not_eq_true'] at h
    rw [h]
    exact Bool.false_ne_true

theorem enumFieldError_eq_none {fm : Frontmatter} {f : String} {allowed : List String}
    (h : enumFieldOk fm f allowed = true) : enumFieldError fm f allowed = none := by
  rw [enumFieldOk] at h
  rw [enumFieldError]
  split
  · rfl
  · next v heq =>
    rw [heq] at h
    rw [if_pos (of_decide_eq_true h)]
  · next v hno heq =>
    rw [heq] at h
    cases v with
    | str s => exact absurd rfl (hno s)
    | strList l => cases h
    | int n => cases h

theorem tagsShapeError_eq_none {fm : Frontmatter} (h : tagsOk fm = true) :
    tagsShapeError fm = none := by
  rw [tagsOk] at h
  rw [tagsShapeError]
  split
  · rfl
  · next l heq =>
    rw [heq] at h
    rw [if_pos]
    rw [Bool.and_eq_true] at h
    obtain ⟨h1, h2⟩ := h
    refine ⟨?_, ?_⟩
    · intro hnil
      rw [hnil] at h1
      cases h1
    · intro s hs
      have := List.all_eq_true.1 h2 s hs
      simpa using this
  · next v hno heq =>
    rw [heq] at h
    cases v with
    | str s => cases h
    | strList l => exact absurd rfl (hno l)
    | int n => cases h

theorem readingTimeShapeError_eq_none {fm : Frontmatter} (h : readingTimeOk fm = true) :
    readingTimeShapeError fm = none := by
  rw [readingTimeOk] at h
  rw [readingTimeShapeError]
  split
  · rfl
  · next n heq =>
    rw [heq] at h
    rw [if_pos (of_decide_eq_true h)]
  · next v hno heq =>
    rw [heq] at h
    cases v with
    | str s => cases h
    | strList l => cases h
    | int n => exact absurd rfl (hno n)

theorem dateShapeError_eq_none {fm : Frontmatter} {f : String}
    (h : dateFieldOk fm f = true) : dateShapeError fm f = none := by
  rw [dateFieldOk] at h
  rw [dateShapeError]
  split
  · rfl
  · next s heq =>
    rw [heq] at h
    rw [if_pos h]
  · next v hno heq =>
    rw [heq] at h
    cases v with
    | str s => exact absurd rfl (hno s)
    | strList l => cases h
    | int n => cases h

/-! ### Render lemmas -/

theorem headingsOf_textNode (s : String) : headingsOf (.textNode s) = [] := by
  simp [headingsOf]

theorem headingsOf_elem (tag : String) (cs : List Node) :
    headingsOf (.elem tag cs) =
      match headingLevelOfTag tag with
      | some l => [(l, textContentList cs)]
      | none => headingsOfList cs := by
  simp [headingsOf]

theorem headingsOf_elem_none {tag : String} (cs : List Node)
    (h : headingLevelOfTag tag = none) :
    headingsOf (.elem tag cs) = headingsOfList cs := by
  rw [headingsOf_elem, h]

theorem headingsOf_h1 (cs : List Node) :
    headingsOf (.elem "h1" cs) = [(1, textContentList cs)] := by
  rw [headingsOf_elem, show headingLevelOfTag "h1" = some 1 from by decide]

theorem headingsOfList_nil : headingsOfList [] = [] := by
  simp [headingsOfList]

theorem headingsOfList_cons (n : Node) (ns : List Node) :
    headingsOfList (n :: ns) = headingsOf n ++ headingsOfList ns := by
  simp [headingsOfList]

theorem headingsOfList_append (a b : List Node) :
    headingsOfList (a ++ b) = headingsOfList a ++ headingsOfList b := by
  induction a with
  | nil => rw [List.nil_append, headingsOfList_nil, List.nil_append]
  | cons n ns ih =>
    rw [List.cons_append, headingsOfList_cons, headingsOfList_cons, ih,
      List.append_assoc]

theorem headingsOfList_map_nil {α : Type} (f : α → Node) (l : List α)
    (hf : ∀ x, headingsOf (f x) = []) : headingsOfList (l.map f) = [] := by
  induction l with
  | nil => exact headingsOfList_nil
  | cons x xs ih =>
    rw [List.map_cons, headingsOfList_cons, hf x, ih, List.nil_append]

theorem headingsOf_renderTableOfContents (hs : List Heading) :
    headingsOf (renderTableOfContents hs) = [] := by
  rw [renderTableOfContents, headingsOf_elem_none _ (by decide)]
  exact headingsOfList_map_nil _ hs fun h =>
    headingsOf_elem_none _ (by decide)

theorem headingsOf_renderRelatedPosts (posts : List String) :
    headingsOf (renderRelatedPosts posts) = [] := by
  rw [renderRelatedPosts, headingsOf_elem_none _ (by decide)]
  exact headingsOfList_map_nil _ posts fun t =>
    headingsOf_elem_none _ (by decide)

theorem headingsOf_renderBlogPost (post : BlogPost) (related : List String)
    (children : List Node) :
    headingsOf (renderBlogPost post related children) =
      (1, post.title) :: headingsOfList children := by
  rcases hdiff : post.difficulty with _ | d <;>
  rcases hupd : post.updatedAt with _ | u <;>
  by_cases htags : post.tags = [] <;>
  by_cases hhead : post.headings = [] <;>
  by_cases hrel : related = [] <;>
  simp [renderBlogPost, headingsOf_elem_none, headingsOf_textNode, headingsOf_h1,
    headingsOfList_nil, headingsOfList_cons, headingsOfList_append,
    headingsOfList_map_nil, headingLevelOfTag, textContent, textContentList,
    headingsOf_renderTableOfContents, headingsOf_renderRelatedPosts,
    hdiff, hupd, htags, hhead, hrel, String.append_empty]

/-! ### Accuracy lemmas -/

theorem log2_eq {q : ℚ} {e : ℤ} (h1 : (2:ℚ) ^ e ≤ q) (h2 : q < (2:ℚ) ^ (e + 1)) :
    Int.log 2 q = e := by
  have hq : 0 < q := lt_of_lt_of_le (zpow_pos (by norm_num) e) h1
  have hle : e ≤ Int.log 2 q :=
    (Int.zpow_le_iff_le_log (by norm_num) hq).mp (by exact_mod_cast h1)
  have hlt : Int.log 2 q < e + 1 :=
    (Int.lt_zpow_iff_log_lt (by norm_num) hq).mp (by exact_mod_cast h2)
  omega

theorem roundNearestEven_ge (q : ℚ) :
    q - 1 / 2 ≤ (roundNearestEven q : ℚ) := by
  have h1 := Int.floor_le q
  have h2 := Int.lt_floor_add_one q
  rw [roundNearestEven]
  split_ifs with ha hb hc <;> push_cast <;> linarith

theorem roundNearestEven_le (q : ℚ) :
    (roundNearestEven q : ℚ) ≤ q + 1 / 2 := by
  have h1 := Int.floor_le q
  have h2 := Int.lt_floor_add_one q
  rw [roundNearestEven]
  split_ifs with ha hb hc <;> push_cast <;> linarith

theorem flPos_bounds {q : ℚ} (hq : 0 < q) :
    q - q / 2 ^ 53 ≤ flPos q ∧ flPos q ≤ q + q / 2 ^ 53 := by
  have h2' : (2:ℚ) ^ Int.log 2 q ≤ q := by
    exact_mod_cast Int.zpow_log_le_self (b := 2) (by norm_num) hq
  have hpow : (0:ℚ) < 2 ^ (Int.log 2 q - 52) := zpow_pos (by norm_num) _
  have hs : q * 2 ^ (52 - Int.log 2 q) * 2 ^ (Int.log 2 q - 52) = q := by
    rw [mul_assoc, ← zpow_add₀ (by norm_num : (2:ℚ) ≠ 0)]
    norm_num
  have hge := roundNearestEven_ge (q * 2 ^ (52 - Int.log 2 q))
  have hle := roundNearestEven_le (q * 2 ^ (52 - Int.log 2 q))
  have hhalf : (1:ℚ) / 2 * 2 ^ (Int.log 2 q - 52) ≤ q / 2 ^ 53 := by
    have e1 : (1:ℚ) / 2 * 2 ^ (Int.log 2 q - 52) = 2 ^ Int.log 2 q * (2:ℚ) ^ (-53 : ℤ) := by
      rw [show (1:ℚ) / 2 = (2:ℚ) ^ (-1 : ℤ) from by norm_num,
        ← zpow_add₀ (by norm_num : (2:ℚ) ≠ 0), ← zpow_add₀ (by norm_num : (2:ℚ) ≠ 0)]
      congr 1
      omega
    have e2 : q / 2 ^ 53 = q * (2:ℚ) ^ (-53 : ℤ) := by
      rw [zpow_neg, div_eq_mul_inv]
      norm_num
    rw [e1, e2]
    exact mul_le_mul_of_nonneg_right h2' (by positivity)
  constructor
  · calc q - q / 2 ^ 53
        ≤ q - (1:ℚ) / 2 * 2 ^ (Int.log 2 q - 52) := by linarith
      _ = (q * 2 ^ (52 - Int.log 2 q) - 1 / 2) * 2 ^ (Int.log 2 q - 52) := by
          rw [sub_mul, hs]
      _ ≤ (roundNearestEven (q * 2 ^ (52 - Int.log 2 q)) : ℚ) * 2 ^ (Int.log 2 q - 52) :=
          mul_le_mul_of_nonneg_right (by linarith) (le_of_lt hpow)
      _ = flPos q := rfl
  · calc flPos q
        = (roundNearestEven (q * 2 ^ (52 - Int.log 2 q)) : ℚ) * 2 ^ (Int.log 2 q - 52) := rfl
      _ ≤ (q * 2 ^ (52 - Int.log 2 q) + 1 / 2) * 2 ^ (Int.log 2 q - 52) :=
          mul_le_mul_of_nonneg_right (by linarith) (le_of_lt hpow)
      _ = q + (1:ℚ) / 2 * 2 ^ (Int.log 2 q - 52) := by rw [add_mul, hs]
      _ ≤ q + q / 2 ^ 53 := by linarith

theorem fl_nonneg {q : ℚ} (hq : 0 ≤ q) : 0 ≤ fl q := by
  rw [fl]
  split_ifs with h0 hpos
  · exact le_refl 0
  · have h1 := (flPos_bounds hpos).1
    have h2 : q / 2 ^ 53 ≤ q := div_le_self hq (by norm_num)
    linarith
  · exact absurd (lt_of_le_of_ne hq (Ne.symm h0)) hpos

theorem fl_le {q : ℚ} (hq : 0 ≤ q) : fl q ≤ q + q / 2 ^ 53 := by
  rw [fl]
  split_ifs with h0 hpos
  · have hd : 0 ≤ q / 2 ^ 53 := by positivity
    linarith
  · exact (flPos_bounds hpos).2
  · exact absurd (lt_of_le_of_ne hq (Ne.symm h0)) hpos

theorem accuracy_nonneg_le (stats : BlitzStats) :
    0 ≤ accuracy stats ∧ accuracy stats ≤ 100 := by
  by_cases ht : 0 < totalAnswers stats
  · rw [accuracy, if_pos ht]
    have ht' : (0:ℚ) < (totalAnswers stats : ℚ) := by exact_mod_cast ht
    have hcle : stats.correct ≤ totalAnswers stats := by rw [totalAnswers]; omega
    have hct1 : (stats.correct : ℚ) / (totalAnswers stats : ℚ) ≤ 1 := by
      rw [div_le_one ht']
      exact_mod_cast hcle
    have hct0 : 0 ≤ (stats.correct : ℚ) / (totalAnswers stats : ℚ) :=
      div_nonneg (by positivity) (le_of_lt ht')
    have hd0 : 0 ≤ fl ((stats.correct : ℚ) / (totalAnswers stats : ℚ)) := fl_nonneg hct0
    have hd1 : fl ((stats.correct : ℚ) / (totalAnswers stats : ℚ)) ≤ 1 + 1 / 2 ^ 53 := by
      have h1 := fl_le hct0
      have h2 : (stats.correct : ℚ) / (totalAnswers stats : ℚ) / 2 ^ 53 ≤ 1 / 2 ^ 53 :=
        (div_le_div_iff_of_pos_right (by positivity)).mpr hct1
      linarith
    have hy0 : 0 ≤ fl ((stats.correct : ℚ) / (totalAnswers stats : ℚ)) * 100 := by
      positivity
    have hx0 : 0 ≤ fl (fl ((stats.correct : ℚ) / (totalAnswers stats : ℚ)) * 100) :=
      fl_nonneg hy0
    have hxle := fl_le hy0
    have hy1 : fl ((stats.correct : ℚ) / (totalAnswers stats : ℚ)) * 100 ≤
        100 + 100 / 2 ^ 53 := by linarith
    have hy2 : fl ((stats.correct : ℚ) / (totalAnswers stats : ℚ)) * 100 / 2 ^ 53 ≤
        (100 + 100 / 2 ^ 53) / 2 ^ 53 :=
      (div_le_div_iff_of_pos_right (by positivity)).mpr hy1
    have hnum : (100 : ℚ) + 100 / 2 ^ 53 + (100 + 100 / 2 ^ 53) / 2 ^ 53 < 201 / 2 := by
      norm_num
    constructor
    · rw [round_eq]
      exact Int.le_floor.mpr (by push_cast; linarith)
    · rw [round_eq]
      have hfl : ⌊fl (fl ((stats.correct : ℚ) / (totalAnswers stats : ℚ)) * 100) + 1 / 2⌋ <
          101 := Int.floor_lt.mpr (by push_cast; linarith)
      omega
  · rw [accuracy, if_neg ht]
    norm_num

theorem log2_23_40 : Int.log 2 ((23:ℚ) / 40) = -1 := by
  apply log2_eq <;> norm_num

theorem fl_23_40 : fl ((23:ℚ) / 40) = 2589569785738035 / 4503599627370496 := by
  rw [fl, if_neg (by norm_num), if_pos (by norm_num), flPos, log2_23_40]
  have harg : (23:ℚ) / 40 * 2 ^ ((52:ℤ) - -1) = 25895697857380352 / 5 := by
    norm_num
  rw [harg]
  have hfloor : ⌊(25895697857380352 / 5 : ℚ)⌋ = 5179139571476070 := by
    rw [Int.floor_eq_iff]
    constructor <;> norm_num
  rw [roundNearestEven, hfloor, if_pos (by norm_num)]
  norm_num

theorem log2_fl_23_40_mul_100 :
    Int.log 2 ((2589569785738035 / 4503599627370496 : ℚ) * 100) = 5 := by
  apply log2_eq <;> norm_num

theorem fl_fl_23_40_mul_100 :
    fl ((2589569785738035 / 4503599627370496 : ℚ) * 100) =
      8092405580431359 / 140737488355328 := by
  rw [fl, if_neg (by norm_num), if_pos (by norm_num), flPos, log2_fl_23_40_mul_100]
  have harg : (2589569785738035 / 4503599627370496 : ℚ) * 100 * 2 ^ ((52:ℤ) - 5) =
      64739244643450875 / 8 := by
    norm_num
  rw [harg]
  have hfloor : ⌊(64739244643450875 / 8 : ℚ)⌋ = 8092405580431359 := by
    rw [Int.floor_eq_iff]
    constructor <;> norm_num
  rw [roundNearestEven, hfloor, if_pos (by norm_num)]
  norm_num

/-! ### Concrete inputs used by witnesses -/

/-- Valid frontmatter record of the specification's end-to-end
example. -/
def fm0 : Frontmatter :=
  [("title", .str "A"), ("description", .str "B"), ("slug", .str "a"),
   ("publishedAt", .str "2024-01-05"), ("author", .str "C"),
   ("category", .str "kanji"), ("tags", .strList ["x"]),
   ("readingTime", .int 5), ("locale", .str "en")]

/-- Concrete blog post used to instantiate the component theorem. -/
def post0 : BlogPost where
  title := "T"
  description := "D"
  slug := "t"
  publishedAt := "2024-01-05"
  updatedAt := none
  author := "A"
  category := "kanji"
  tags := ["x"]
  featuredImage := none
  readingTime := 1
  difficulty := none
  relatedPosts := none
  locale := "en"
  content := ""
  headings := [⟨"intro", "Intro", 2⟩]
  headings_levels := by decide

/-! ### The claims -/

/-- C1: for every input markup source, the sequence of `Heading`
values produced by `extractHeadings` has pairwise distinct ids — no
two headings in one produced sequence share an id. -/
theorem extractHeadings_ids_nodup (source : String) :
    ((extractHeadings source).map Heading.id).Nodup := by
  have h : (extractHeadings source).Pairwise (fun a b => a.id ≠ b.id) :=
    (extractAux_fresh_pairwise (splitLines source.data) 0 []).2
  exact List.pairwise_map.mpr h

/-- C2: for every frontmatter record, `validateFrontmatter` returns
normally — it is a total function whose failure mode is a returned
error list — and its `isValid` field is true exactly when its error
list is empty. -/
theorem validateFrontmatter_isValid_iff (fm : Frontmatter) :
    (validateFrontmatter fm).isValid = true ↔ (validateFrontmatter fm).errors = [] := by
  simp [validateFrontmatter, List.isEmpty_iff]

/-- C3: on the source `"## Overview\n### Details\n## Overview"` the
extractor yields exactly the headings (level 2, "Overview", id
"overview"), (level 3, "Details", id "details"), (level 2, "Overview",
id "overview-2") in source order, the duplicate text disambiguated by
a numeric suffix. -/
theorem extractHeadings_overview_details :
    extractHeadings "## Overview\n### Details\n## Overview" =
      [⟨"overview", "Overview", 2⟩, ⟨"details", "Details", 3⟩,
       ⟨"overview-2", "Overview", 2⟩] := by
  decide

/-- C4: for every frontmatter record missing a required field F, the
error list of `validateFrontmatter` contains exactly one entry
referencing F, and the whole list is collected without short-circuit
as required-field errors in declaration order, then domain errors,
then shape errors. -/
theorem validateFrontmatter_missing_required (fm : Frontmatter) (F : String)
    (hF : F ∈ REQUIRED_FRONTMATTER_FIELDS) (hmiss : getField fm F = none) :
    ((validateFrontmatter fm).errors.filter (fun e => e.field == F)).length = 1 ∧
    (validateFrontmatter fm).errors =
      requiredErrors fm ++ domainErrors fm ++ shapeErrors fm := by
  have herr : (validateFrontmatter fm).errors =
      requiredErrors fm ++ domainErrors fm ++ shapeErrors fm := rfl
  refine ⟨?_, herr⟩
  rw [herr, List.filter_append, List.filter_append]
  have h2 : (domainErrors fm).filter (fun e => e.field == F) = [] := by
    rw [List.filter_eq_nil_iff]
    intro e he hbeq
    have hne := (domainErrors_field he).2
    rw [eq_of_beq hbeq] at hne
    exact hne hmiss
  have h3 : (shapeErrors fm).filter (fun e => e.field == F) = [] := by
    rw [List.filter_eq_nil_iff]
    intro e he hbeq
    have hne := (shapeErrors_field he).2
    rw [eq_of_beq hbeq] at hne
    exact hne hmiss
  rw [h2, h3, List.append_nil, List.append_nil]
  exact filterMap_required_count REQUIRED_FRONTMATTER_FIELDS hF (by decide) hmiss

/-- C4 witness: the empty record misses the required field "title" and
gets exactly one error referencing it. -/
theorem validateFrontmatter_missing_required_witness :
    "title" ∈ REQUIRED_FRONTMATTER_FIELDS ∧
    getField ([] : Frontmatter) "title" = none ∧
    ((validateFrontmatter ([] : Frontmatter)).errors.filter
      (fun e => e.field == "title")).length = 1 :=
  ⟨by decide, rfl,
    (validateFrontmatter_missing_required ([] : Frontmatter) "title" (by decide) rfl).1⟩

/-- C5: every frontmatter record that passes all the individual checks
— required fields present and non-empty, enumerated fields within
their allowed sets, tags a non-empty list of non-empty strings,
readingTime a positive integer, date fields well-formed — validates
with `isValid = true` and an empty error list. -/
theorem validateFrontmatter_valid (fm : Frontmatter)
    (hreq : ∀ f ∈ REQUIRED_FRONTMATTER_FIELDS, fieldPresentNonEmpty fm f = true)
    (hcat : enumFieldOk fm "category" VALID_CATEGORIES = true)
    (hdiff : enumFieldOk fm "difficulty" VALID_DIFFICULTIES = true)
    (hloc : enumFieldOk fm "locale" VALID_LOCALES = true)
    (htags : tagsOk fm = true)
    (hrt : readingTimeOk fm = true)
    (hpub : dateFieldOk fm "publishedAt" = true)
    (hupd : dateFieldOk fm "updatedAt" = true) :
    validateFrontmatter fm = ⟨true, []⟩ := by
  have h1 : requiredErrors fm = [] := by
    rw [requiredErrors, List.filterMap_eq_nil_iff]
    intro f hf
    exact requiredFieldError_eq_none (hreq f hf)
  have h2 : domainErrors fm = [] := by
    rw [domainErrors, enumFieldError_eq_none hcat, enumFieldError_eq_none hdiff,
      enumFieldError_eq_none hloc]
    rfl
  have h3 : shapeErrors fm = [] := by
    rw [shapeErrors, tagsShapeError_eq_none htags, readingTimeShapeError_eq_none hrt,
      dateShapeError_eq_none hpub, dateShapeError_eq_none hupd]
    rfl
  simp [validateFrontmatter, h1, h2, h3]

/-- C5 witness: the specification's end-to-end record validates to
`isValid = true` with no errors. -/
theorem validateFrontmatter_valid_witness :
    validateFrontmatter fm0 = ⟨true, []⟩ :=
  validateFrontmatter_valid fm0 (by decide) (by decide) (by decide) (by decide)
    (by decide) (by decide) (by decide) (by decide)

/-- C6: for every input source, no level-1 marker produces an entry —
every heading in the output of `extractHeadings` has level 2, 3 or 4,
never 1. -/
theorem extractHeadings_levels (source : String) :
    ∀ h ∈ extractHeadings source,
      h.level ≠ 1 ∧ (h.level = 2 ∨ h.level = 3 ∨ h.level = 4) := by
  intro h hmem
  have := extractAux_levels (splitLines source.data) 0 [] h hmem
  omega

/-- C6 witness: with a level-1 marker interleaved before a level-2
marker, the level-2 heading is produced and is not level 1. -/
theorem extractHeadings_levels_witness :
    (⟨"overview", "Overview", 2⟩ : Heading) ∈
      extractHeadings "# Title\n## Overview" ∧
    ((⟨"overview", "Overview", 2⟩ : Heading).level ≠ 1 ∧
      ((⟨"overview", "Overview", 2⟩ : Heading).level = 2 ∨
       (⟨"overview", "Overview", 2⟩ : Heading).level = 3 ∨
       (⟨"overview", "Overview", 2⟩ : Heading).level = 4)) :=
  ⟨by decide, extractHeadings_levels "# Title\n## Overview" _ (by decide)⟩

/-- C7: the id generated by `generateHeadingId` is the slug of the
text — lowercased, runs of whitespace and non-alphanumeric characters
replaced by single hyphens, outer hyphens trimmed — whenever that slug
is non-empty; an empty slug falls back to a positional
heading-index-based placeholder, so the id is never empty. -/
theorem generateHeadingId_spec (text : String) (index : Nat) :
    (slugify text ≠ "" → generateHeadingId text index = slugify text) ∧
    (slugify text = "" →
      generateHeadingId text index = "heading-" ++ natToString index) ∧
    generateHeadingId text index ≠ "" := by
  refine ⟨?_, ?_, ?_⟩
  · intro h
    rw [generateHeadingId, if_neg h]
  · intro h
    rw [generateHeadingId, if_pos h]
  · by_cases h : slugify text = ""
    · rw [generateHeadingId, if_pos h]
      intro heq
      have hdata := congrArg String.data heq
      rw [String.data_append] at hdata
      have h8 : ("heading-").data ≠ [] := by decide
      exact h8 (List.append_eq_nil.1 hdata).1
    · rw [generateHeadingId, if_neg h]
      exact h

/-- C8 counterexample: the whitespace-only text " " is non-empty and
has zero whitespace-delimited tokens, yet `calculateReadingTime`
returns 1, not the ceiling 0 — so the claim that the result always
equals ceiling(wordCount / wordsPerMinute) fails there. -/
theorem calculateReadingTime_whitespace_counterexample :
    " " ≠ "" ∧ wordCount " " = 0 ∧ calculateReadingTime " " = 1 ∧
    calculateReadingTime " " ≠
      (wordCount " " + (WORDS_PER_MINUTE - 1)) / WORDS_PER_MINUTE := by
  decide

/-- C8 (amended): for every text with at least one whitespace-delimited
token, `calculateReadingTime` returns ceiling(wordCount /
wordsPerMinute); for every text the result is at least 1 minute (in
particular for non-empty text, where a whitespace-only text gets the
one-minute floor instead of the ceiling 0). -/
theorem calculateReadingTime_spec (text : String) :
    (1 ≤ wordCount text →
      calculateReadingTime text =
        (wordCount text + (WORDS_PER_MINUTE - 1)) / WORDS_PER_MINUTE) ∧
    1 ≤ calculateReadingTime text := by
  constructor
  · intro h
    rw [calculateReadingTime]
    have h200 : WORDS_PER_MINUTE = 200 := rfl
    rw [h200]
    omega
  · rw [calculateReadingTime]
    exact le_max_left _ _

/-- C9: the `BlogPost` component renders exactly one level-1 heading,
first, containing exactly the post title; when the externally rendered
content headings agree with `post.headings` (as the pipeline
guarantees), every rendered heading other than the title comes from
`post.headings`, whose levels are 2, 3 or 4 only. -/
theorem blogPost_heading_structure (post : BlogPost) (related : List String)
    (children : List Node)
    (hch : headingsOfList children = post.headings.map fun h => (h.level, h.text)) :
    headingsOf (renderBlogPost post related children) =
      (1, post.title) :: post.headings.map (fun h => (h.level, h.text)) ∧
    (∀ p ∈ headingsOf (renderBlogPost post related children),
      p.1 = 1 → p = (1, post.title)) ∧
    (∀ h ∈ post.headings, h.level = 2 ∨ h.level = 3 ∨ h.level = 4) := by
  have hmain := headingsOf_renderBlogPost post related children
  refine ⟨by rw [hmain, hch], ?_, post.headings_levels⟩
  intro p hp h1
  rw [hmain, hch] at hp
  rcases List.mem_cons.1 hp with hph | htail
  · rw [hph]
  · obtain ⟨h, hh, hph⟩ := List.mem_map.1 htail
    have hlev := post.headings_levels h hh
    rw [← hph] at h1
    simp only at h1
    omega

/-- C9 witness: a concrete post whose content renders one level-2
heading; the full render's heading list is the title h1 followed by
that heading. -/
theorem blogPost_heading_structure_witness :
    headingsOfList [Node.elem "h2" [Node.textNode "Intro"]] =
      post0.headings.map (fun h => (h.level, h.text)) ∧
    headingsOf (renderBlogPost post0 [] [Node.elem "h2" [Node.textNode "Intro"]]) =
      (1, post0.title) :: post0.headings.map (fun h => (h.level, h.text)) :=
  ⟨by decide,
    (blogPost_heading_structure post0 [] [Node.elem "h2" [Node.textNode "Intro"]]
      (by decide)).1⟩

/-- C10 counterexample: at correct = 23, wrong = 17 the component's
double arithmetic computes `(23/40)*100` as the binary64 value
8092405580431359/2^47 ≈ 57.49999999999999, so `Math.round` displays
57, while the exact rounded percentage round(100·23/40) = round(57.5)
is 58 — the displayed accuracy does not equal the exact rounded
percentage. -/
theorem accuracy_float_counterexample :
    accuracy ⟨23, 17, 0⟩ = 57 ∧
    round (((⟨23, 17, 0⟩ : BlitzStats).correct : ℚ) /
      (totalAnswers ⟨23, 17, 0⟩ : ℚ) * 100) = 58 ∧
    accuracy ⟨23, 17, 0⟩ ≠
      round (((⟨23, 17, 0⟩ : BlitzStats).correct : ℚ) /
        (totalAnswers ⟨23, 17, 0⟩ : ℚ) * 100) := by
  have hc : ((⟨23, 17, 0⟩ : BlitzStats).correct : ℚ) = 23 := by norm_num
  have htq : ((totalAnswers ⟨23, 17, 0⟩ : ℕ) : ℚ) = 40 := by
    rw [show totalAnswers ⟨23, 17, 0⟩ = 40 from rfl]
    norm_num
  have h1 : accuracy ⟨23, 17, 0⟩ = 57 := by
    rw [accuracy, if_pos (by decide), hc, htq, fl_23_40, fl_fl_23_40_mul_100,
      round_eq, Int.floor_eq_iff]
    constructor <;> norm_num
  have h2 : round (((⟨23, 17, 0⟩ : BlitzStats).correct : ℚ) /
      (totalAnswers ⟨23, 17, 0⟩ : ℚ) * 100) = 58 := by
    rw [hc, htq, round_eq, Int.floor_eq_iff]
    constructor <;> norm_num
  refine ⟨h1, h2, ?_⟩
  rw [h1, h2]
  decide

/-- C10 (amended): in `ActiveGame` the displayed accuracy is
`Math.round((correct / totalAnswers) * 100)` evaluated in IEEE-754
double arithmetic — each operation rounded to the nearest binary64
value (`fl`) — which can differ from the exact rounded percentage at
double-rounding boundaries such as 23 of 40; the division is guarded
so that zero answers yield 0, and the displayed value is always an
integer between 0 and 100. -/
theorem accuracy_spec (stats : BlitzStats) :
    (0 < totalAnswers stats →
      accuracy stats =
        round (fl (fl ((stats.correct : ℚ) / (totalAnswers stats : ℚ)) * 100))) ∧
    (totalAnswers stats = 0 → accuracy stats = 0) ∧
    0 ≤ accuracy stats ∧ accuracy stats ≤ 100 := by
  obtain ⟨hb0, hb1⟩ := accuracy_nonneg_le stats
  refine ⟨fun ht => ?_, fun h0 => ?_, hb0, hb1⟩
  · rw [accuracy, if_pos ht]
  · rw [accuracy, if_neg (by omega)]

end KanaDojo
